import Mathlib

/-!
Shallow embedding of the ai_edge task orchestration and detection pipeline:
the task scheduler / executor (`src/components/task_scheduler.py`), the alert
debounce machinery (`src/components/alert_manager.py`), the inference engine
factory and base engine (`src/inference/factory.py`, `src/inference/base.py`),
the CPU engine postprocessing (`src/inference/cpu_inference.py`) and the push
notification fan-out (`src/components/push_notification.py`).

Machine floats are modelled as rationals, Python dicts as association lists
with unique keys, wall-clock times as rationals passed in explicitly, and
fallible calls as `Except` / `Option` values supplied by the environment.
-/

namespace AiEdge

/-! ## Python dict primitives -/

/-- Python dict lookup `d[k]` / `k in d`: the value at the first binding of
`k`, if any. -/
def dictLookup {κ α : Type} [DecidableEq κ] (k : κ) : List (κ × α) → Option α
  | [] => none
  | (k', v) :: rest => if k' = k then some v else dictLookup k rest

/-- Python dict assignment `d[k] = v`: replace the value at an existing
binding of `k`, otherwise append a new binding. -/
def dictInsert {κ α : Type} [DecidableEq κ] (k : κ) (v : α) :
    List (κ × α) → List (κ × α)
  | [] => [(k, v)]
  | (k', v') :: rest =>
    if k' = k then (k, v) :: rest else (k', v') :: dictInsert k v rest

/-- Python dict deletion `del d[k]`: drop the first binding of `k`. -/
def dictRemove {κ α : Type} [DecidableEq κ] (k : κ) :
    List (κ × α) → List (κ × α)
  | [] => []
  | (k', v) :: rest =>
    if k' = k then rest else (k', v) :: dictRemove k rest

/-! ## Detections and the debounce manager (`alert_manager.py`) -/

/-- A detection dict as consumed by the executor and the alert manager:
`class_name`, `confidence` and an `[x1, y1, x2, y2]` bounding box. -/
structure Detection where
  class_name : String
  confidence : ℚ
  bbox : List ℤ
deriving DecidableEq, Repr

/-- State of `DebounceManager`: the debounce window (seconds) and the
`alert_history` dict from alert keys to the time of the last alert. -/
structure DebounceManager where
  debounce_time : ℚ
  alert_history : List (String × ℚ)
deriving DecidableEq, Repr

/-- `DebounceManager._generate_alert_key`: the class name plus a 100-pixel
grid bucket of the bbox center (Python `//` is floor division), or
`"<class>_unknown"` when the bbox has fewer than four entries. -/
def generateAlertKey (d : Detection) : String :=
  if d.bbox.length ≥ 4 then
    let center_x := Int.fdiv (d.bbox.getD 0 0 + d.bbox.getD 2 0) 2
    let center_y := Int.fdiv (d.bbox.getD 1 0 + d.bbox.getD 3 0) 2
    let grid_x := Int.fdiv center_x 100
    let grid_y := Int.fdiv center_y 100
    d.class_name ++ "_" ++ toString grid_x ++ "_" ++ toString grid_y
  else
    d.class_name ++ "_unknown"

/-- `DebounceManager._cleanup_old_alerts`: delete every history entry older
than twice the debounce window. -/
def cleanupOldAlerts (current_time : ℚ) (m : DebounceManager) : DebounceManager :=
  ⟨m.debounce_time,
   m.alert_history.filter
     (fun kv => ! decide (current_time - kv.2 > m.debounce_time * 2))⟩

/-- `DebounceManager.should_alert`: returns `false` if a prior alert for the
same generated key happened within the window (leaving the state untouched);
otherwise records `current_time` under the key, cleans up expired entries and
returns `true`.  `current_time` stands for `time.time()`. -/
def shouldAlert (d : Detection) (current_time : ℚ) (m : DebounceManager) :
    Bool × DebounceManager :=
  let alert_key := generateAlertKey d
  match dictLookup alert_key m.alert_history with
  | some last_alert_time =>
    if current_time - last_alert_time < m.debounce_time then
      (false, m)
    else
      (true, cleanupOldAlerts current_time
        ⟨m.debounce_time, dictInsert alert_key current_time m.alert_history⟩)
  | none =>
    (true, cleanupOldAlerts current_time
      ⟨m.debounce_time, dictInsert alert_key current_time m.alert_history⟩)

/-- Python `str.split(sep, maxsplit)` on character lists: split on `sep` at
most `maxsplit` times, keeping the remainder whole. -/
def splitMaxAux (sep : Char) : Nat → List Char → List Char → List (List Char)
  | _, acc, [] => [acc.reverse]
  | 0, acc, rest => [acc.reverse ++ rest]
  | Nat.succ n, acc, c :: cs =>
    if c = sep then acc.reverse :: splitMaxAux sep n [] cs
    else splitMaxAux sep (Nat.succ n) (c :: acc) cs

/-- Python `s.split(sep, maxsplit)` on strings. -/
def pySplitMax (s : String) (sep : Char) (maxsplit : Nat) : List String :=
  (splitMaxAux sep maxsplit [] s.data).map List.asString

/-- `AlertManager.should_debounce_alert`: the compat shim used by the
executor.  It parses only the class name back out of the alert key
(`alert_key.split('_', 2)[2]`), builds a stand-in detection with the fixed
bbox `[0, 0, 100, 100]`, temporarily installs `debounce_interval` as the
manager's window, asks `should_alert`, restores the window and returns the
negation. -/
def shouldDebounceAlert (alert_key : String) (debounce_interval : ℚ)
    (current_time : ℚ) (m : DebounceManager) : Bool × DebounceManager :=
  let parts := pySplitMax alert_key '_' 2
  let class_name := if parts.length ≥ 3 then parts.getD 2 "" else "unknown"
  let temp_detection : Detection := ⟨class_name, 0, [0, 0, 100, 100]⟩
  let old_debounce_time := m.debounce_time
  let result := shouldAlert temp_detection current_time
    ⟨debounce_interval, m.alert_history⟩
  (! result.1, ⟨old_debounce_time, result.2.alert_history⟩)

/-! ## Task definitions and the execution-time window (`task_scheduler.py`) -/

/-- The fields of a `Task` row used by the scheduler and executor. -/
structure Task where
  id : ℕ
  is_enabled : Bool
  schedule_type : String
  start_time : String
  end_time : String
  schedule_days : List String
  confidence_threshold : ℚ
  alert_debounce_interval : ℚ
deriving DecidableEq, Repr

/-- One numeric field of a `%H:%M:%S` parse: one or two digits within the
given bounds, as validated by `datetime.strptime`. -/
def parseTimeField (s : String) (hi : Nat) : Option Nat :=
  if s.length = 0 ∨ s.length > 2 then none
  else if s.data.all Char.isDigit then
    let n := s.data.foldl (fun acc c => acc * 10 + (c.toNat - 48)) 0
    if n ≤ hi then some n else none
  else none

/-- `datetime.strptime(s, '%H:%M:%S').time()`, as seconds since midnight.
Comparison of Python `time` objects is lexicographic on (hour, minute,
second), which coincides with comparison of these second counts. -/
def parseTimeHMS (s : String) : Option Nat :=
  match s.splitOn ":" with
  | [h, m, sec] => do
    let hv ← parseTimeField h 23
    let mv ← parseTimeField m 59
    let sv ← parseTimeField sec 59
    pure (hv * 3600 + mv * 60 + sv)
  | _ => none

/-- `TaskExecutor._is_in_execution_time`: `True` for continuous tasks; on a
parse failure of either bound the bare `except` returns `True`; otherwise the
window test is `start_time <= current_time <= end_time`, additionally
requiring the current weekday for weekly tasks. `now` is the current time of
day in seconds, `weekday` is `str(now.isoweekday())`. -/
def isInExecutionTime (task : Task) (now : Nat) (weekday : String) : Bool :=
  if task.schedule_type = "continuous" then true
  else
    match parseTimeHMS task.start_time, parseTimeHMS task.end_time with
    | some start_time, some end_time =>
      let time_in_range := decide (start_time ≤ now ∧ now ≤ end_time)
      if task.schedule_type = "daily" then time_in_range
      else if task.schedule_type = "weekly" then
        time_in_range && decide (weekday ∈ task.schedule_days)
      else if task.schedule_type = "monthly" then time_in_range
      else true
    | _, _ => true

/-- The window test of `sync_task_states_on_startup` in `api/main.py` (the
process-based pipeline), which distinguishes overnight windows: for
`end_time > start_time` it is `start <= now < end`, otherwise
`now >= start or now < end`.  A parse failure leaves the task not started. -/
def timeIsRightSync (start_s end_s : String) (now : Nat) : Bool :=
  match parseTimeHMS start_s, parseTimeHMS end_s with
  | some start_time, some end_time =>
    if end_time > start_time then decide (start_time ≤ now ∧ now < end_time)
    else decide (now ≥ start_time ∨ now < end_time)
  | _, _ => false

/-! ## The executor's detection filter (`TaskExecutor._execution_loop`) -/

/-- The filtering step of `TaskExecutor._execution_loop` between
`InferenceEngine.detect` and `_process_detections`: the list comprehension
keeping detections with `confidence >= task.confidence_threshold`.  This is
the only filter in the loop. -/
def executionLoopFilter (confidence_threshold : ℚ) (detections : List Detection) :
    List Detection :=
  detections.filter (fun d => decide (d.confidence ≥ confidence_threshold))

/-- An ROI rectangle `{x, y, w, h}` as stored on a video source. -/
structure Roi where
  x : ℚ
  y : ℚ
  w : ℚ
  h : ℚ
deriving DecidableEq, Repr

/-- Modelled from the spec: the box-center-in-ROI test the spec attributes to
the `TaskExecutor` detection loop.  `TaskExecutor._execution_loop` contains no
ROI logic; the analogous test in the repository is the center containment
check of `run_detection_for_task` in `api/main.py`.  The center of an
`[x1, y1, x2, y2]` box is `((x1+x2)/2, (y1+y2)/2)` and must lie inside the
ROI rectangle. -/
def centerInRoi (roi : Roi) (d : Detection) : Bool :=
  let center_x : ℚ := ((d.bbox.getD 0 0 : ℤ) + (d.bbox.getD 2 0 : ℤ)) / 2
  let center_y : ℚ := ((d.bbox.getD 1 0 : ℤ) + (d.bbox.getD 3 0 : ℤ)) / 2
  decide (roi.x ≤ center_x ∧ center_x ≤ roi.x + roi.w ∧
          roi.y ≤ center_y ∧ center_y ≤ roi.y + roi.h)

/-! ## The scheduler's reconciliation state machine (`TaskScheduler`) -/

/-- The scheduler-visible state: the `executors` dict from task id to a live
executor handle, and the log of `update_task_status` calls issued to the
store (most recent last). -/
structure SchedState where
  executors : List (ℕ × ℕ)
  status_updates : List (ℕ × String)
deriving DecidableEq, Repr

/-- `TaskScheduler._start_task`: construct and start a `TaskExecutor` for the
task.  `construct` models the fallible `TaskExecutor(task, config)`
constructor (`none` when it raises).  On success the executor is recorded and
the task status set to `"running"`; on failure the exception is caught and
the status set to `"error"`. -/
def startTask (construct : ℕ → Option ℕ) (task : Task) (s : SchedState) :
    SchedState :=
  match construct task.id with
  | some executor =>
    ⟨dictInsert task.id executor s.executors,
     s.status_updates ++ [(task.id, "running")]⟩
  | none => ⟨s.executors, s.status_updates ++ [(task.id, "error")]⟩

/-- `TaskScheduler._stop_task`: if an executor is recorded for the id, stop
it, discard it and set the task status to `"stopped"`. -/
def stopTask (task_id : ℕ) (s : SchedState) : SchedState :=
  if (dictLookup task_id s.executors).isSome then
    ⟨dictRemove task_id s.executors,
     s.status_updates ++ [(task_id, "stopped")]⟩
  else s

/-- `TaskScheduler.start_task_manually`: raises when `get_task_by_id` finds no
task; is a no-op when an executor is already recorded; otherwise starts the
task.  `store` models the task table read by `get_task_by_id`. -/
def startTaskManually (store : List Task) (construct : ℕ → Option ℕ)
    (task_id : ℕ) (s : SchedState) : Except String SchedState :=
  match store.find? (fun t => decide (t.id = task_id)) with
  | none => Except.error ("task does not exist: " ++ toString task_id)
  | some task =>
    if (dictLookup task_id s.executors).isSome then Except.ok s
    else Except.ok (startTask construct task s)

/-- `TaskScheduler.stop_task_manually`: a no-op when no executor is recorded
for the id, otherwise `_stop_task`. -/
def stopTaskManually (task_id : ℕ) (s : SchedState) : SchedState :=
  if (dictLookup task_id s.executors).isSome then stopTask task_id s else s

/-- The start half of one `_scheduler_loop` tick: for each fetched task that
is enabled and has no recorded executor, `_start_task` it.  Also returns the
ids for which a `TaskExecutor` construction was attempted this tick. -/
def tickStarts (construct : ℕ → Option ℕ) :
    List Task → SchedState → SchedState × List ℕ
  | [], s => (s, [])
  | task :: rest, s =>
    if task.is_enabled && (dictLookup task.id s.executors).isNone then
      let s1 := startTask construct task s
      let result := tickStarts construct rest s1
      (result.1, task.id :: result.2)
    else tickStarts construct rest s

/-- The stop half of one `_scheduler_loop` tick: stop every recorded executor
whose task id is no longer among the enabled fetched tasks. -/
def tickStops (tasks : List Task) (s : SchedState) : SchedState :=
  let active_task_ids := (tasks.filter (fun t => t.is_enabled)).map Task.id
  let to_stop := (s.executors.map Prod.fst).filter
    (fun i => ! decide (i ∈ active_task_ids))
  to_stop.foldl (fun st i => stopTask i st) s

/-- One reconciliation tick of `TaskScheduler._scheduler_loop`: fetch all
tasks, start enabled tasks without executors, stop executors of disabled or
deleted tasks.  Returns the new state and the construction attempts made. -/
def schedulerTick (construct : ℕ → Option ℕ) (tasks : List Task)
    (s : SchedState) : SchedState × List ℕ :=
  let started := tickStarts construct tasks s
  (tickStops tasks started.1, started.2)

/-! ## The inference engine factory (`inference/factory.py`) -/

/-- The log records `InferenceFactory.create_engine` can emit. -/
inductive FactoryLog where
  | unsupported (platform : String)
  | created (platform : String)
  | createFailed (platform : String)
deriving DecidableEq, Repr

/-- `InferenceFactory.create_engine`: look the platform up in the `_engines`
registry; an unregistered platform logs an unsupported-platform error and
returns `None`; a registered class is instantiated (`construct`, `none` when
the constructor raises — the exception is caught and `None` returned). -/
def createEngine {α β : Type} (engines : List (String × α)) (platform : String)
    (construct : α → Option β) : Option β × List FactoryLog :=
  match dictLookup platform engines with
  | none => (none, [FactoryLog.unsupported platform])
  | some engine_class =>
    match construct engine_class with
    | some engine => (some engine, [FactoryLog.created platform])
    | none => (none, [FactoryLog.createFailed platform])

/-! ## The engine base class (`inference/base.py`) -/

/-- `InferenceEngine.performance_stats`. -/
structure PerformanceStats where
  total_inferences : ℕ
  total_time : ℚ
  avg_time : ℚ
  last_inference_time : ℚ
deriving DecidableEq, Repr

/-- `InferenceEngine._update_performance_stats`. -/
def updatePerformanceStats (inference_time : ℚ) (s : PerformanceStats) :
    PerformanceStats :=
  let total_inferences := s.total_inferences + 1
  let total_time := s.total_time + inference_time
  ⟨total_inferences, total_time, total_time / total_inferences, inference_time⟩

/-- The engine state `detect` touches: the `is_loaded` flag and the counters. -/
structure EngineState where
  is_loaded : Bool
  performance_stats : PerformanceStats
deriving DecidableEq, Repr

/-- `InferenceEngine.detect`: raises if the model is not loaded; otherwise
chains preprocess, infer and postprocess — each modelled as an environment-
supplied `Except` — re-raising any failure with the counters untouched, and
updating the counters only after all three succeed.  `inference_time` stands
for `time.time() - start_time`. -/
def detect {α β γ : Type} (st : EngineState)
    (preprocessResult : Except String α) (inferResult : α → Except String β)
    (postprocessResult : β → Except String γ) (inference_time : ℚ) :
    Except String (γ × ℚ) × EngineState :=
  if st.is_loaded = false then
    (Except.error "model not loaded, call load_model() first", st)
  else
    match preprocessResult with
    | Except.error e => (Except.error e, st)
    | Except.ok input_data =>
      match inferResult input_data with
      | Except.error e => (Except.error e, st)
      | Except.ok outputs =>
        match postprocessResult outputs with
        | Except.error e => (Except.error e, st)
        | Except.ok detections =>
          (Except.ok (detections, inference_time),
           ⟨st.is_loaded, updatePerformanceStats inference_time st.performance_stats⟩)

/-! ## Push notification fan-out (`push_notification.py`) -/

/-- `PushNotificationManager.push_alert`: iterate over the configured pushers
(each one's `push` modelled as an `Except`: `ok success?` or a raised
exception), recording a boolean per protocol; an exception is caught, logged
and recorded as `False`; the loop continues with the remaining pushers. -/
def pushAlert (pushers : List (String × Except String Bool)) :
    List (String × Bool) :=
  match pushers with
  | [] => []
  | (protocol, r) :: rest =>
    (protocol,
      match r with
      | Except.ok success => success
      | Except.error _ => false) :: pushAlert rest

/-! ## CPU engine postprocessing (`inference/cpu_inference.py`) -/

/-- Python `int()` applied to a rational: truncation toward zero. -/
def pyInt (q : ℚ) : ℤ := Int.tdiv q.num q.den

/-- Python list indexing `l[i]`, where a negative index counts from the end. -/
def pyListIndex (l : List String) (i : ℤ) : String :=
  if 0 ≤ i then l.getD i.toNat "" else l.getD (l.length - (-i).toNat) ""

/-- The label chosen for a detection:
`labels[class_id] if class_id < len(labels) else 'class_<id>'`. -/
def classLabel (labels : List String) (class_id : ℤ) : String :=
  if class_id < (labels.length : ℤ) then pyListIndex labels class_id
  else "class_" ++ toString class_id

/-- One row of a shape-`(n, 6)` output array:
`[x1, y1, x2, y2, confidence, class_id]`. -/
structure XyxyRow where
  x1 : ℚ
  y1 : ℚ
  x2 : ℚ
  y2 : ℚ
  confidence : ℚ
  class_id : ℚ
deriving DecidableEq, Repr

/-- One row of a shape-`(n, >=85)` YOLOv5 output array:
`[x_center, y_center, width, height, obj_conf, class_probs...]`. -/
structure YoloRow where
  x_center : ℚ
  y_center : ℚ
  width : ℚ
  height : ℚ
  obj_conf : ℚ
  class_probs : List ℚ
deriving DecidableEq, Repr

/-- A detection dict built by `CPUInference`: `bbox` `[x1, y1, x2, y2]` in
original-frame pixels, `confidence`, `class_id`, `label`. -/
structure CpuDetection where
  bbox : List ℤ
  confidence : ℚ
  class_id : ℤ
  label : String
deriving DecidableEq, Repr

/-- The engine attributes `postprocess` reads, set in
`InferenceEngine.__init__` from the config. -/
structure EngineConfig where
  confidence_threshold : ℚ
  nms_threshold : ℚ
  input_size : ℕ × ℕ
  labels : List String
deriving DecidableEq, Repr

/-- The coordinate scaling and clamping of `_process_xyxy_format`: each
coordinate is scaled by the ratio of the original size to the model input
size (`int()` truncation), then clamped into the original frame.  As in the
source, x-coordinates are divided by `input_size[0]` and y-coordinates by
`input_size[1]`. -/
def scaleClampXyxy (cfg : EngineConfig) (orig_h orig_w : ℕ)
    (x1 y1 x2 y2 : ℚ) : List ℤ :=
  let sx1 := pyInt (x1 * orig_w / (cfg.input_size.1 : ℚ))
  let sy1 := pyInt (y1 * orig_h / (cfg.input_size.2 : ℚ))
  let sx2 := pyInt (x2 * orig_w / (cfg.input_size.1 : ℚ))
  let sy2 := pyInt (y2 * orig_h / (cfg.input_size.2 : ℚ))
  [max 0 (min sx1 orig_w), max 0 (min sy1 orig_h),
   max 0 (min sx2 orig_w), max 0 (min sy2 orig_h)]

/-- The detection dict `_process_xyxy_format` appends for one passing row. -/
def xyxyDetection (cfg : EngineConfig) (orig_h orig_w : ℕ) (r : XyxyRow) :
    CpuDetection :=
  { bbox := scaleClampXyxy cfg orig_h orig_w r.x1 r.y1 r.x2 r.y2
    confidence := r.confidence
    class_id := pyInt r.class_id
    label := classLabel cfg.labels (pyInt r.class_id) }

/-- `CPUInference._process_xyxy_format`: per row, skip when
`confidence < self.confidence_threshold`, otherwise scale, clamp and append.
The function returns without any NMS step. -/
def processXyxyFormat (cfg : EngineConfig) (rows : List XyxyRow)
    (orig_h orig_w : ℕ) : List CpuDetection :=
  match rows with
  | [] => []
  | r :: rest =>
    if r.confidence < cfg.confidence_threshold then
      processXyxyFormat cfg rest orig_h orig_w
    else
      xyxyDetection cfg orig_h orig_w r :: processXyxyFormat cfg rest orig_h orig_w

/-- `np.argmax` over a probability row: index of the first maximum. -/
def argmaxAux : List ℚ → ℕ → ℕ → ℚ → ℕ
  | [], _, best, _ => best
  | q :: rest, i, best, best_val =>
    if q > best_val then argmaxAux rest (i + 1) i q
    else argmaxAux rest (i + 1) best best_val

/-- `np.argmax` (0 on an empty list, where numpy would raise). -/
def npArgmax : List ℚ → ℕ
  | [] => 0
  | q :: rest => argmaxAux rest 1 0 q

/-- The detection dict `_process_yolo_format` appends for one passing row,
after converting the center/size box to corners and scaling as in the xyxy
path. -/
def yoloDetection (cfg : EngineConfig) (orig_h orig_w : ℕ) (r : YoloRow) :
    CpuDetection :=
  let class_id := npArgmax r.class_probs
  let class_conf := r.class_probs.getD class_id 0
  { bbox := scaleClampXyxy cfg orig_h orig_w
      (r.x_center - r.width / 2) (r.y_center - r.height / 2)
      (r.x_center + r.width / 2) (r.y_center + r.height / 2)
    confidence := r.obj_conf * class_conf
    class_id := (class_id : ℤ)
    label := classLabel cfg.labels (class_id : ℤ) }

/-- The per-row loop of `_process_yolo_format` before NMS: confidence is
`obj_conf * max(class_probs)`; rows below the threshold are skipped. -/
def yoloCandidates (cfg : EngineConfig) (rows : List YoloRow)
    (orig_h orig_w : ℕ) : List CpuDetection :=
  match rows with
  | [] => []
  | r :: rest =>
    if r.obj_conf * r.class_probs.getD (npArgmax r.class_probs) 0 <
        cfg.confidence_threshold then
      yoloCandidates cfg rest orig_h orig_w
    else
      yoloDetection cfg orig_h orig_w r :: yoloCandidates cfg rest orig_h orig_w

/-- The rectangle overlap used by `cv2.dnn.NMSBoxes`, which interprets each
box as `(x, y, w, h)` — note `_apply_nms` passes the engine's
`[x1, y1, x2, y2]` bboxes into this interface unchanged. -/
def iouXYWH (a b : List ℤ) : ℚ :=
  let ax := a.getD 0 0
  let ay := a.getD 1 0
  let aw := a.getD 2 0
  let ah := a.getD 3 0
  let bx := b.getD 0 0
  let by_ := b.getD 1 0
  let bw := b.getD 2 0
  let bh := b.getD 3 0
  let ix := max 0 (min (ax + aw) (bx + bw) - max ax bx)
  let iy := max 0 (min (ay + ah) (by_ + bh) - max ay by_)
  let inter : ℤ := ix * iy
  let union : ℤ := aw * ah + bw * bh - inter
  (inter : ℚ) / (union : ℚ)

/-- The greedy selection inside `cv2.dnn.NMSBoxes`: walk the candidates in
score order, keeping an index only when its overlap with every already-kept
box is at most the NMS threshold. -/
def greedyNms (boxes : List (List ℤ)) (nms_threshold : ℚ) :
    List ℕ → List ℕ → List ℕ
  | kept, [] => kept.reverse
  | kept, i :: rest =>
    if kept.all (fun k =>
        decide (iouXYWH (boxes.getD i []) (boxes.getD k []) ≤ nms_threshold)) then
      greedyNms boxes nms_threshold (i :: kept) rest
    else greedyNms boxes nms_threshold kept rest

/-- Insertion of an index into a score-descending index list. -/
def insertByScoreDesc (scores : List ℚ) (i : ℕ) : List ℕ → List ℕ
  | [] => [i]
  | j :: rest =>
    if scores.getD i 0 ≥ scores.getD j 0 then i :: j :: rest
    else j :: insertByScoreDesc scores i rest

/-- Sort candidate indices by descending score. -/
def sortByScoreDesc (scores : List ℚ) : List ℕ → List ℕ
  | [] => []
  | i :: rest => insertByScoreDesc scores i (sortByScoreDesc scores rest)

/-- Model of `cv2.dnn.NMSBoxes(boxes, scores, score_threshold, nms_threshold)`:
drop candidates with score not above `score_threshold`, order the rest by
descending score and select greedily. -/
def nmsBoxes (boxes : List (List ℤ)) (scores : List ℚ)
    (score_threshold nms_threshold : ℚ) : List ℕ :=
  let candidates := (List.range scores.length).filter
    (fun i => decide (scores.getD i 0 > score_threshold))
  greedyNms boxes nms_threshold [] (sortByScoreDesc scores candidates)

/-- `CPUInference._apply_nms`: empty input is returned as is; otherwise the
bbox and score columns are handed to `cv2.dnn.NMSBoxes` with the engine's
confidence and NMS thresholds and the surviving indices are looked up. -/
def applyNms (cfg : EngineConfig) (detections : List CpuDetection) :
    List CpuDetection :=
  match detections with
  | [] => []
  | _ =>
    let boxes := detections.map CpuDetection.bbox
    let scores := detections.map CpuDetection.confidence
    let indices := nmsBoxes boxes scores cfg.confidence_threshold cfg.nms_threshold
    match indices with
    | [] => []
    | _ => indices.filterMap (fun i => detections.get? i)

/-- `CPUInference._process_yolo_format`: the candidate loop followed by
`_apply_nms`. -/
def processYoloFormat (cfg : EngineConfig) (rows : List YoloRow)
    (orig_h orig_w : ℕ) : List CpuDetection :=
  applyNms cfg (yoloCandidates cfg rows orig_h orig_w)

/-- The first output array handed to `postprocess`, after removal of the
batch dimension; the runtime shape dispatch on `output.shape[1]` becomes a
variant: width 6, width at least 85, or anything else. -/
inductive RawOutput where
  | xyxy (rows : List XyxyRow)
  | yolo (rows : List YoloRow)
  | other
deriving Repr

/-- `CPUInference.postprocess`: empty output list gives no detections;
otherwise the first output is dispatched on its width — `(n, 6)` rows to
`_process_xyxy_format`, YOLOv5 rows to `_process_yolo_format`, and an unknown
width logs a warning and returns no detections. -/
def postprocess (cfg : EngineConfig) (outputs : List RawOutput)
    (orig_h orig_w : ℕ) : List CpuDetection :=
  match outputs with
  | [] => []
  | output :: _ =>
    match output with
    | RawOutput.xyxy rows => processXyxyFormat cfg rows orig_h orig_w
    | RawOutput.yolo rows => processYoloFormat cfg rows orig_h orig_w
    | RawOutput.other => []

/-- Modelled from the spec: the post-state of a non-max suppression pass —
"non-max suppression with a fixed IoU threshold [has been] applied" — no two
distinct returned detections overlap by more than the NMS threshold (under
the same box interpretation `_apply_nms` hands to `cv2.dnn.NMSBoxes`). -/
def nmsApplied (nms_threshold : ℚ) (detections : List CpuDetection) : Prop :=
  List.Pairwise (fun a b => iouXYWH a.bbox b.bbox ≤ nms_threshold) detections

/-- Modelled from the spec: "box coordinates returned in original-frame pixel
space" — a four-entry box whose x-coordinates lie in `[0, orig_w]` and whose
y-coordinates lie in `[0, orig_h]`. -/
def bboxInFrame (orig_h orig_w : ℕ) : List ℤ → Bool
  | [a, b, c, e] =>
    decide (0 ≤ a ∧ a ≤ (orig_w : ℤ) ∧ 0 ≤ b ∧ b ≤ (orig_h : ℤ) ∧
            0 ≤ c ∧ c ≤ (orig_w : ℤ) ∧ 0 ≤ e ∧ e ≤ (orig_h : ℤ))
  | _ => false

/-! # Helper lemmas -/

theorem dictLookup_dictInsert_self {κ α : Type} [DecidableEq κ]
    (k : κ) (v : α) (l : List (κ × α)) :
    dictLookup k (dictInsert k v l) = some v := by
  induction l with
  | nil => simp [dictInsert, dictLookup]
  | cons hd tl ih =>
    by_cases h : hd.1 = k
    · simp [dictInsert, dictLookup, h]
    · simpa [dictInsert, dictLookup, h] using ih

theorem dictLookup_dictInsert_ne {κ α : Type} [DecidableEq κ]
    {k k2 : κ} (v : α) (l : List (κ × α)) (h : k ≠ k2) :
    dictLookup k (dictInsert k2 v l) = dictLookup k l := by
  induction l with
  | nil => simp [dictInsert, dictLookup, Ne.symm h]
  | cons hd tl ih =>
    obtain ⟨k1, v1⟩ := hd
    by_cases h2 : k1 = k2
    · simp [dictInsert, dictLookup, h2, Ne.symm h, h]
    · by_cases h3 : k1 = k
      · simp [dictInsert, dictLookup, h2, h3, h]
      · simpa [dictInsert, dictLookup, h2, h3] using ih

theorem dictLookup_filter {κ α : Type} [DecidableEq κ]
    {k : κ} {v : α} {l : List (κ × α)} (p : κ × α → Bool)
    (hl : dictLookup k l = some v) (hp : p (k, v) = true) :
    dictLookup k (l.filter p) = some v := by
  induction l with
  | nil => simp [dictLookup] at hl
  | cons hd tl ih =>
    by_cases h : hd.1 = k
    · have hv : hd.2 = v := by
        simpa [dictLookup, h] using hl
      have hhd : hd = (k, v) := by
        cases hd; cases h; cases hv; rfl
      subst hhd
      simp [List.filter, hp, dictLookup]
    · have hl2 : dictLookup k tl = some v := by
        simpa [dictLookup, h] using hl
      rcases hph : p hd with _ | _
      · simpa [List.filter, hph] using ih hl2
      · simpa [List.filter, hph, dictLookup, h] using ih hl2

theorem dictLookup_dictRemove_none {κ α : Type} [DecidableEq κ]
    {k : κ} (j : κ) {l : List (κ × α)} (h : dictLookup k l = none) :
    dictLookup k (dictRemove j l) = none := by
  induction l with
  | nil => simp [dictRemove, dictLookup]
  | cons hd tl ih =>
    by_cases hk : hd.1 = k
    · simp [dictLookup, hk] at h
    · have h2 : dictLookup k tl = none := by simpa [dictLookup, hk] using h
      by_cases hj : hd.1 = j
      · simpa [dictRemove, hj] using h2
      · simpa [dictRemove, hj, dictLookup, hk] using ih h2

theorem mem_keys_dictInsert {κ α : Type} [DecidableEq κ]
    {j k : κ} (v : α) (l : List (κ × α))
    (h : j ∈ (dictInsert k v l).map Prod.fst) :
    j = k ∨ j ∈ l.map Prod.fst := by
  induction l with
  | nil =>
    simp only [dictInsert, List.map_cons, List.map_nil,
      List.mem_singleton] at h
    exact Or.inl h
  | cons hd tl ih =>
    obtain ⟨k1, v1⟩ := hd
    by_cases hk : k1 = k
    · rw [show dictInsert k v ((k1, v1) :: tl) = (k, v) :: tl from by
        simp [dictInsert, hk]] at h
      simp only [List.map_cons, List.mem_cons] at h
      rcases h with h | h
      · exact Or.inl h
      · exact Or.inr (by
          simp only [List.map_cons, List.mem_cons]
          exact Or.inr h)
    · rw [show dictInsert k v ((k1, v1) :: tl) = (k1, v1) :: dictInsert k v tl
        from by simp [dictInsert, hk]] at h
      simp only [List.map_cons, List.mem_cons] at h
      rcases h with h | h
      · exact Or.inr (by
          simp only [List.map_cons, List.mem_cons]
          exact Or.inl h)
      · rcases ih h with h2 | h2
        · exact Or.inl h2
        · exact Or.inr (by
            simp only [List.map_cons, List.mem_cons]
            exact Or.inr h2)

theorem keys_nodup_dictInsert {κ α : Type} [DecidableEq κ]
    (k : κ) (v : α) (l : List (κ × α))
    (h : (l.map Prod.fst).Nodup) :
    ((dictInsert k v l).map Prod.fst).Nodup := by
  induction l with
  | nil => simp [dictInsert]
  | cons hd tl ih =>
    obtain ⟨k1, v1⟩ := hd
    rw [List.map_cons, List.nodup_cons] at h
    by_cases hk : k1 = k
    · rw [show dictInsert k v ((k1, v1) :: tl) = (k, v) :: tl from by
        simp [dictInsert, hk]]
      rw [List.map_cons, List.nodup_cons]
      exact ⟨by rw [← hk]; exact h.1, h.2⟩
    · rw [show dictInsert k v ((k1, v1) :: tl) = (k1, v1) :: dictInsert k v tl
        from by simp [dictInsert, hk]]
      rw [List.map_cons, List.nodup_cons]
      refine ⟨fun hmem => ?_, ih h.2⟩
      rcases mem_keys_dictInsert v tl hmem with h2 | h2
      · exact hk h2
      · exact h.1 h2

theorem startTask_status_mono (construct : ℕ → Option ℕ) (t : Task)
    (s : SchedState) (x : ℕ × String) (hx : x ∈ s.status_updates) :
    x ∈ (startTask construct t s).status_updates := by
  rcases hc : construct t.id with _ | ex <;> simp [startTask, hc, hx]

theorem startTask_lookup_ne (construct : ℕ → Option ℕ) (t : Task)
    (s : SchedState) (i : ℕ) (hne : i ≠ t.id) :
    dictLookup i (startTask construct t s).executors =
      dictLookup i s.executors := by
  rcases hc : construct t.id with _ | ex
  · simp [startTask, hc]
  · simp only [startTask, hc]
    exact dictLookup_dictInsert_ne ex s.executors hne

theorem tickStarts_status_mono (construct : ℕ → Option ℕ) (tasks : List Task) :
    ∀ (s : SchedState) (x : ℕ × String), x ∈ s.status_updates →
      x ∈ (tickStarts construct tasks s).1.status_updates := by
  induction tasks with
  | nil => intro s x hx; exact hx
  | cons t rest ih =>
    intro s x hx
    by_cases hcond : (t.is_enabled && (dictLookup t.id s.executors).isNone) = true
    · simp only [tickStarts, hcond, if_true]
      exact ih (startTask construct t s) x
        (startTask_status_mono construct t s x hx)
    · simp only [tickStarts, hcond, if_false]
      exact ih s x hx

theorem tickStarts_lookup_notmem (construct : ℕ → Option ℕ)
    (tasks : List Task) (i : ℕ) (hni : i ∉ tasks.map Task.id) :
    ∀ s : SchedState,
      dictLookup i (tickStarts construct tasks s).1.executors =
        dictLookup i s.executors := by
  induction tasks with
  | nil => intro s; rfl
  | cons t rest ih =>
    intro s
    rw [List.map_cons] at hni
    have hne : i ≠ t.id := fun h => hni (by rw [h]; exact List.mem_cons_self _ _)
    have hni2 : i ∉ rest.map Task.id := fun h => hni (List.mem_cons_of_mem _ h)
    by_cases hcond : (t.is_enabled && (dictLookup t.id s.executors).isNone) = true
    · simp only [tickStarts, hcond, if_true]
      rw [ih hni2 (startTask construct t s)]
      exact startTask_lookup_ne construct t s i hne
    · simp only [tickStarts, hcond, if_false]
      exact ih hni2 s

theorem tickStarts_failed_attempt (construct : ℕ → Option ℕ) (t : Task)
    (hen : t.is_enabled = true) (hfail : construct t.id = none) :
    ∀ (tasks : List Task) (s : SchedState), t ∈ tasks →
      (tasks.map Task.id).Nodup → dictLookup t.id s.executors = none →
      t.id ∈ (tickStarts construct tasks s).2 ∧
      dictLookup t.id (tickStarts construct tasks s).1.executors = none ∧
      (t.id, "error") ∈ (tickStarts construct tasks s).1.status_updates := by
  intro tasks
  induction tasks with
  | nil => intro s hmem; exact absurd hmem (List.not_mem_nil t)
  | cons u rest ih =>
    intro s hmem hnd hnone
    rw [List.map_cons, List.nodup_cons] at hnd
    rcases List.mem_cons.mp hmem with heq | hmem2
    · subst heq
      have hcond : (t.is_enabled && (dictLookup t.id s.executors).isNone) = true := by
        rw [hen, hnone]; rfl
      have hs1 : startTask construct t s =
          ⟨s.executors, s.status_updates ++ [(t.id, "error")]⟩ := by
        simp [startTask, hfail]
      simp only [tickStarts, hcond, if_true]
      refine ⟨List.mem_cons_self _ _, ?_, ?_⟩
      · rw [tickStarts_lookup_notmem construct rest t.id hnd.1
          (startTask construct t s), hs1]
        exact hnone
      · apply tickStarts_status_mono
        rw [hs1]
        simp
    · have hne : u.id ≠ t.id :=
        fun h => hnd.1 (h ▸ List.mem_map_of_mem Task.id hmem2)
      by_cases hcond : (u.is_enabled && (dictLookup u.id s.executors).isNone) = true
      · simp only [tickStarts, hcond, if_true]
        have hlook : dictLookup t.id (startTask construct u s).executors = none := by
          rw [startTask_lookup_ne construct u s t.id (Ne.symm hne)]
          exact hnone
        have hrec := ih (startTask construct u s) hmem2 hnd.2 hlook
        exact ⟨List.mem_cons_of_mem _ hrec.1, hrec.2.1, hrec.2.2⟩
      · simp only [tickStarts, hcond, if_false]
        exact ih s hmem2 hnd.2 hnone

theorem stopTask_status_mono (j : ℕ) (s : SchedState) (x : ℕ × String)
    (hx : x ∈ s.status_updates) : x ∈ (stopTask j s).status_updates := by
  unfold stopTask
  by_cases h : (dictLookup j s.executors).isSome <;> simp [h, hx]

theorem stopTask_lookup_none (i j : ℕ) (s : SchedState)
    (h : dictLookup i s.executors = none) :
    dictLookup i (stopTask j s).executors = none := by
  unfold stopTask
  by_cases hj : (dictLookup j s.executors).isSome
  · simp only [hj, if_true]
    exact dictLookup_dictRemove_none j h
  · simp only [hj, if_false]
    exact h

theorem foldl_stopTask_status_mono (ids : List ℕ) :
    ∀ (s : SchedState) (x : ℕ × String), x ∈ s.status_updates →
      x ∈ (ids.foldl (fun st i => stopTask i st) s).status_updates := by
  induction ids with
  | nil => intro s x hx; exact hx
  | cons j rest ih =>
    intro s x hx
    exact ih (stopTask j s) x (stopTask_status_mono j s x hx)

theorem foldl_stopTask_lookup_none (ids : List ℕ) (i : ℕ) :
    ∀ s : SchedState, dictLookup i s.executors = none →
      dictLookup i ((ids.foldl (fun st j => stopTask j st) s)).executors = none := by
  induction ids with
  | nil => intro s h; exact h
  | cons j rest ih =>
    intro s h
    exact ih (stopTask j s) (stopTask_lookup_none i j s h)

theorem tickStops_status_mono (tasks : List Task) (s : SchedState)
    (x : ℕ × String) (hx : x ∈ s.status_updates) :
    x ∈ (tickStops tasks s).status_updates :=
  foldl_stopTask_status_mono _ s x hx

theorem tickStops_lookup_none (tasks : List Task) (s : SchedState) (i : ℕ)
    (h : dictLookup i s.executors = none) :
    dictLookup i (tickStops tasks s).executors = none :=
  foldl_stopTask_lookup_none _ i s h

theorem getD_eq_getQuery {α : Type} (l : List α) (n : ℕ) (d : α) :
    l.getD n d = (l.get? n).getD d := by
  induction l generalizing n with
  | nil => cases n <;> rfl
  | cons a rest ih =>
    cases n with
    | zero => rfl
    | succ k => exact ih k

theorem processXyxyFormat_eq_filter_map (cfg : EngineConfig)
    (rows : List XyxyRow) (orig_h orig_w : ℕ) :
    processXyxyFormat cfg rows orig_h orig_w =
      (rows.filter (fun r =>
        ! decide (r.confidence < cfg.confidence_threshold))).map
        (xyxyDetection cfg orig_h orig_w) := by
  induction rows with
  | nil => rfl
  | cons r rest ih =>
    by_cases h : r.confidence < cfg.confidence_threshold
    · simp [processXyxyFormat, h, ih]
    · simp [processXyxyFormat, h, ih]

theorem bboxInFrame_scaleClampXyxy (cfg : EngineConfig) (orig_h orig_w : ℕ)
    (x1 y1 x2 y2 : ℚ) :
    bboxInFrame orig_h orig_w (scaleClampXyxy cfg orig_h orig_w x1 y1 x2 y2) =
      true := by
  simp only [scaleClampXyxy, bboxInFrame]
  apply decide_eq_true
  refine ⟨le_max_left 0 _,
    max_le (Int.natCast_nonneg orig_w) (min_le_right _ _),
    le_max_left 0 _,
    max_le (Int.natCast_nonneg orig_h) (min_le_right _ _),
    le_max_left 0 _,
    max_le (Int.natCast_nonneg orig_w) (min_le_right _ _),
    le_max_left 0 _,
    max_le (Int.natCast_nonneg orig_h) (min_le_right _ _)⟩

theorem mem_processXyxyFormat (cfg : EngineConfig) (rows : List XyxyRow)
    (orig_h orig_w : ℕ) (d : CpuDetection)
    (h : d ∈ processXyxyFormat cfg rows orig_h orig_w) :
    cfg.confidence_threshold ≤ d.confidence ∧
    bboxInFrame orig_h orig_w d.bbox = true := by
  rw [processXyxyFormat_eq_filter_map] at h
  rcases List.mem_map.mp h with ⟨r, hr, hd⟩
  have hfil := List.mem_filter.mp hr
  have hconf : ¬ (r.confidence < cfg.confidence_threshold) := by
    simpa using hfil.2
  subst hd
  exact ⟨not_lt.mp hconf, bboxInFrame_scaleClampXyxy cfg orig_h orig_w _ _ _ _⟩

theorem mem_yoloCandidates (cfg : EngineConfig) (rows : List YoloRow)
    (orig_h orig_w : ℕ) (d : CpuDetection)
    (h : d ∈ yoloCandidates cfg rows orig_h orig_w) :
    cfg.confidence_threshold ≤ d.confidence ∧
    bboxInFrame orig_h orig_w d.bbox = true := by
  induction rows with
  | nil => exact absurd h (List.not_mem_nil d)
  | cons r rest ih =>
    have hunf : yoloCandidates cfg (r :: rest) orig_h orig_w =
        if r.obj_conf * r.class_probs.getD (npArgmax r.class_probs) 0 <
            cfg.confidence_threshold then
          yoloCandidates cfg rest orig_h orig_w
        else
          yoloDetection cfg orig_h orig_w r ::
            yoloCandidates cfg rest orig_h orig_w := rfl
    by_cases hc : r.obj_conf * r.class_probs.getD (npArgmax r.class_probs) 0 <
        cfg.confidence_threshold
    · rw [hunf, if_pos hc] at h
      exact ih h
    · rw [hunf, if_neg hc] at h
      rcases List.mem_cons.mp h with heq | hmem
      · subst heq
        exact ⟨not_lt.mp hc,
          bboxInFrame_scaleClampXyxy cfg orig_h orig_w _ _ _ _⟩
      · exact ih hmem

theorem mem_applyNms (cfg : EngineConfig) (detections : List CpuDetection)
    (d : CpuDetection) (h : d ∈ applyNms cfg detections) : d ∈ detections := by
  rcases detections with _ | ⟨d0, rest⟩
  · exact absurd h (List.not_mem_nil d)
  · simp only [applyNms] at h
    rcases hidx : nmsBoxes ((d0 :: rest).map CpuDetection.bbox)
        ((d0 :: rest).map CpuDetection.confidence)
        cfg.confidence_threshold cfg.nms_threshold with _ | ⟨i0, irest⟩
    · rw [hidx] at h
      exact absurd h (List.not_mem_nil d)
    · rw [hidx] at h
      rcases List.mem_filterMap.mp h with ⟨i, _, hget⟩
      exact List.get?_mem hget

theorem iouXYWH_comm (a b : List ℤ) : iouXYWH a b = iouXYWH b a := by
  simp only [iouXYWH]
  rw [max_comm (a.getD 0 0) (b.getD 0 0), max_comm (a.getD 1 0) (b.getD 1 0),
    min_comm (a.getD 0 0 + a.getD 2 0) (b.getD 0 0 + b.getD 2 0),
    min_comm (a.getD 1 0 + a.getD 3 0) (b.getD 1 0 + b.getD 3 0),
    add_comm (a.getD 2 0 * a.getD 3 0) (b.getD 2 0 * b.getD 3 0)]

theorem greedyNms_pairwise (boxes : List (List ℤ)) (nms_threshold : ℚ) :
    ∀ (pending kept : List ℕ),
      kept.Pairwise (fun i k =>
        iouXYWH (boxes.getD i []) (boxes.getD k []) ≤ nms_threshold) →
      (greedyNms boxes nms_threshold kept pending).Pairwise (fun k i =>
        iouXYWH (boxes.getD i []) (boxes.getD k []) ≤ nms_threshold) := by
  intro pending
  induction pending with
  | nil =>
    intro kept hk
    rw [show greedyNms boxes nms_threshold kept [] = kept.reverse from rfl]
    exact List.pairwise_reverse.mpr hk
  | cons i rest ih =>
    intro kept hk
    have hunf : greedyNms boxes nms_threshold kept (i :: rest) =
        if (kept.all (fun k => decide (iouXYWH (boxes.getD i [])
            (boxes.getD k []) ≤ nms_threshold))) = true then
          greedyNms boxes nms_threshold (i :: kept) rest
        else greedyNms boxes nms_threshold kept rest := rfl
    by_cases hall : (kept.all (fun k =>
        decide (iouXYWH (boxes.getD i []) (boxes.getD k []) ≤ nms_threshold))) = true
    · rw [hunf, if_pos hall]
      apply ih
      refine List.Pairwise.cons ?_ hk
      intro k hkmem
      exact of_decide_eq_true (List.all_eq_true.mp hall k hkmem)
    · rw [hunf, if_neg hall]
      exact ih kept hk

theorem pairwise_filterMap_getQuery {α : Type} {R : α → α → Prop}
    (l : List α) :
    ∀ idxs : List ℕ,
      idxs.Pairwise (fun i j => ∀ x y,
        l.get? i = some x → l.get? j = some y → R x y) →
      (idxs.filterMap (fun i => l.get? i)).Pairwise R := by
  intro idxs
  induction idxs with
  | nil =>
    intro _
    exact List.Pairwise.nil
  | cons i rest ih =>
    intro h
    rw [List.pairwise_cons] at h
    rcases hg : l.get? i with _ | x
    · rw [List.filterMap_cons_none (f := fun j => l.get? j) hg]
      exact ih h.2
    · rw [List.filterMap_cons_some (f := fun j => l.get? j) hg]
      refine List.Pairwise.cons ?_ (ih h.2)
      intro y hy
      rcases List.mem_filterMap.mp hy with ⟨j, hj, hjy⟩
      exact h.1 j hj x y hg hjy

theorem nmsApplied_applyNms (cfg : EngineConfig)
    (detections : List CpuDetection) :
    nmsApplied cfg.nms_threshold (applyNms cfg detections) := by
  rcases detections with _ | ⟨d0, rest⟩
  · exact List.Pairwise.nil
  · simp only [applyNms, nmsApplied]
    have hpw := greedyNms_pairwise ((d0 :: rest).map CpuDetection.bbox)
      cfg.nms_threshold
      (sortByScoreDesc ((d0 :: rest).map CpuDetection.confidence)
        ((List.range ((d0 :: rest).map CpuDetection.confidence).length).filter
          (fun i =>
            decide (((d0 :: rest).map CpuDetection.confidence).getD i 0 >
              cfg.confidence_threshold))))
      [] List.Pairwise.nil
    rcases hidx : nmsBoxes ((d0 :: rest).map CpuDetection.bbox)
        ((d0 :: rest).map CpuDetection.confidence)
        cfg.confidence_threshold cfg.nms_threshold with _ | ⟨i0, irest⟩
    · exact List.Pairwise.nil
    · have hpw2 : (i0 :: irest).Pairwise (fun k i =>
          iouXYWH (((d0 :: rest).map CpuDetection.bbox).getD i [])
            (((d0 :: rest).map CpuDetection.bbox).getD k []) ≤
            cfg.nms_threshold) := by
        rw [← hidx]
        exact hpw
      apply pairwise_filterMap_getQuery
      refine hpw2.imp ?_
      intro a b hab x y hx hy
      have hxa : ((d0 :: rest).map CpuDetection.bbox).getD a [] = x.bbox := by
        rw [getD_eq_getQuery, List.get?_map, hx]
        rfl
      have hyb : ((d0 :: rest).map CpuDetection.bbox).getD b [] = y.bbox := by
        rw [getD_eq_getQuery, List.get?_map, hy]
        rfl
      rw [hxa, hyb] at hab
      rw [iouXYWH_comm]
      exact hab

/-! # Claim theorems -/

/-- C1 (counterexample): in `TaskExecutor._execution_loop`, a detection with
confidence 0.9 ≥ threshold 0.5 whose box-center (150, 150) lies outside the
configured ROI (0, 0, 10, 10) is nevertheless passed on to
`_process_detections` — the loop applies no ROI filter, refuting the claim
that only detections passing both the confidence and the ROI filter reach
alert processing. -/
theorem executionLoop_passes_outside_roi :
    executionLoopFilter ((1 : ℚ)/2)
        [⟨"person", (9 : ℚ)/10, [100, 100, 200, 200]⟩] =
      [⟨"person", (9 : ℚ)/10, [100, 100, 200, 200]⟩] ∧
    centerInRoi ⟨0, 0, 10, 10⟩ ⟨"person", (9 : ℚ)/10, [100, 100, 200, 200]⟩ =
      false := by
  constructor
  · with_unfolding_all rfl
  · with_unfolding_all rfl

/-- C1 (amended): the detection filter of `TaskExecutor._execution_loop` is
the confidence filter alone — a detection is passed on to alert processing
exactly when its confidence is at or above the task's threshold, regardless
of any configured ROI; no ROI filter is applied in this loop. -/
theorem executionLoopFilter_confidence_only
    (confidence_threshold : ℚ) (detections : List Detection) (d : Detection) :
    d ∈ executionLoopFilter confidence_threshold detections ↔
      d ∈ detections ∧ confidence_threshold ≤ d.confidence := by
  simp [executionLoopFilter, List.mem_filter, ge_iff_le]

/-- C4: for a daily task with the overnight window 22:00:00–06:00:00,
`TaskExecutor._is_in_execution_time` reports 23:00:00 as outside the window
(`start <= now <= end` is unsatisfiable for a wrapped window), so the
executor idles; the startup-sync check in `api/main.py` classifies the same
instant as inside the window, witnessing the intended overnight handling. -/
theorem isInExecutionTime_overnight_window :
    isInExecutionTime ⟨1, true, "daily", "22:00:00", "06:00:00", [],
        (1 : ℚ)/2, 60⟩ (23 * 3600) "4" = false ∧
    timeIsRightSync "22:00:00" "06:00:00" (23 * 3600) = true := by
  constructor
  · with_unfolding_all rfl
  · with_unfolding_all rfl

/-- C6: `InferenceFactory.create_engine` returns no engine and logs an
explicit unsupported-platform error for every platform absent from the
registry, and any engine it does return was constructed from the registered
class for exactly the requested platform — never a fallback. -/
theorem createEngine_unsupported_no_fallback {α β : Type}
    (engines : List (String × α)) (platform : String)
    (construct : α → Option β) :
    (dictLookup platform engines = none →
      createEngine engines platform construct =
        (none, [FactoryLog.unsupported platform])) ∧
    (∀ e, (createEngine engines platform construct).1 = some e →
      ∃ engine_class, dictLookup platform engines = some engine_class ∧
        construct engine_class = some e) := by
  constructor
  · intro h
    simp [createEngine, h]
  · intro e he
    unfold createEngine at he
    rcases hl : dictLookup platform engines with _ | cls
    · rw [hl] at he
      simp at he
    · rw [hl] at he
      have he2 : (match construct cls with
          | some engine => (some engine, [FactoryLog.created platform])
          | none => (none, [FactoryLog.createFailed platform])).1 = some e := he
      rcases hc : construct cls with _ | eng
      · rw [hc] at he2
        simp at he2
      · rw [hc] at he2
        simp at he2
        exact ⟨cls, rfl, by rw [hc, he2]⟩

/-- C6 (witness): the spec scenario — an unknown platform string against the
CPU-only registry yields no engine and the unsupported-platform error. -/
theorem createEngine_unsupported_no_fallback_witness :
    createEngine [("cpu_x86", 0), ("cpu_arm", 1)] "unknown_platform"
        (fun c => some c) =
      (none, [FactoryLog.unsupported "unknown_platform"]) :=
  (createEngine_unsupported_no_fallback [("cpu_x86", 0), ("cpu_arm", 1)]
    "unknown_platform" (fun c => some c)).1 (by with_unfolding_all rfl)

/-- C8: `AlertManager.should_debounce_alert` collapses the executor's alert
key down to the class name and a constant spatial bucket: with a 60-second
window, an alert fired for task 1 (key `"1_cam_person"`, time 0) debounces
the alert for the distinct task 2 (key `"2_cam_person"`, time 10), and an
alert for source `camA` debounces the alert for the distinct source `camB` —
contradicting the claim that task id and video source are distinguished. -/
theorem shouldDebounceAlert_conflates_keys :
    (shouldDebounceAlert "1_cam_person" 60 0 ⟨60, []⟩).1 = false ∧
    (shouldDebounceAlert "2_cam_person" 60 10
        (shouldDebounceAlert "1_cam_person" 60 0 ⟨60, []⟩).2).1 = true ∧
    (shouldDebounceAlert "1_rtsp://camA_person" 60 0 ⟨60, []⟩).1 = false ∧
    (shouldDebounceAlert "1_rtsp://camB_person" 60 10
        (shouldDebounceAlert "1_rtsp://camA_person" 60 0 ⟨60, []⟩).2).1 =
      true := by
  refine ⟨?_, ?_, ?_, ?_⟩
  · with_unfolding_all rfl
  · with_unfolding_all rfl
  · with_unfolding_all rfl
  · with_unfolding_all rfl

/-- C9: `PushNotificationManager.push_alert` records one boolean per
configured pusher, in order: a pusher whose `push` returns normally
contributes its own result and a pusher whose `push` raises contributes
`False`, independently of every other pusher — no exception escapes and
every sink is attempted. -/
theorem pushAlert_isolates_sink_failures
    (pushers : List (String × Except String Bool)) :
    (pushAlert pushers).length = pushers.length ∧
    ∀ (i : ℕ) (protocol : String) (r : Except String Bool),
      pushers.get? i = some (protocol, r) →
      (pushAlert pushers).get? i = some (protocol, r.toOption.getD false) := by
  induction pushers with
  | nil =>
    refine ⟨rfl, ?_⟩
    intro i p r h
    exact Option.noConfusion h
  | cons hd tl ih =>
    obtain ⟨p0, r0⟩ := hd
    refine ⟨by simpa [pushAlert] using ih.1, ?_⟩
    intro i p r h
    cases i with
    | zero =>
      have h1 : some (p0, r0) = some (p, r) := h
      injection h1 with h2
      injection h2 with hp hr
      subst hp
      subst hr
      cases r0 <;> rfl
    | succ n =>
      have h1 : tl.get? n = some (p, r) := h
      exact ih.2 n p r h1

/-- C9 (witness): with an MQTT pusher that raises and an HTTP pusher that
succeeds, the raising pusher is recorded as `False` while the other sink is
still attempted and recorded. -/
theorem pushAlert_isolates_sink_failures_witness :
    (pushAlert [("mqtt", Except.error "connection refused"),
        ("http", Except.ok true)]).get? 0 = some ("mqtt", false) ∧
    (pushAlert [("mqtt", Except.error "connection refused"),
        ("http", Except.ok true)]).get? 1 = some ("http", true) :=
  ⟨(pushAlert_isolates_sink_failures
      [("mqtt", Except.error "connection refused"), ("http", Except.ok true)]).2
      0 "mqtt" (Except.error "connection refused") rfl,
   (pushAlert_isolates_sink_failures
      [("mqtt", Except.error "connection refused"), ("http", Except.ok true)]).2
      1 "http" (Except.ok true) rfl⟩

/-- C10: `InferenceEngine.detect` is atomic with respect to the performance
counters: whenever it returns an error (model not loaded, or preprocess /
infer / postprocess raising) the engine state is exactly the input state;
on success `total_inferences` grows by one, `total_time` by the elapsed
time, `last_inference_time` is the elapsed time and `avg_time` equals
`total_time / total_inferences`. -/
theorem detect_counters_atomic {α β γ : Type} (st : EngineState)
    (preprocessResult : Except String α) (inferResult : α → Except String β)
    (postprocessResult : β → Except String γ) (inference_time : ℚ) :
    (∀ e, (detect st preprocessResult inferResult postprocessResult
        inference_time).1 = Except.error e →
      (detect st preprocessResult inferResult postprocessResult
        inference_time).2 = st) ∧
    (∀ out t, (detect st preprocessResult inferResult postprocessResult
        inference_time).1 = Except.ok (out, t) →
      (detect st preprocessResult inferResult postprocessResult
          inference_time).2.performance_stats.total_inferences =
        st.performance_stats.total_inferences + 1 ∧
      (detect st preprocessResult inferResult postprocessResult
          inference_time).2.performance_stats.total_time =
        st.performance_stats.total_time + inference_time ∧
      (detect st preprocessResult inferResult postprocessResult
          inference_time).2.performance_stats.last_inference_time =
        inference_time ∧
      (detect st preprocessResult inferResult postprocessResult
          inference_time).2.performance_stats.avg_time =
        (detect st preprocessResult inferResult postprocessResult
            inference_time).2.performance_stats.total_time /
          ((detect st preprocessResult inferResult postprocessResult
              inference_time).2.performance_stats.total_inferences : ℚ)) := by
  obtain ⟨ld, stats⟩ := st
  rcases ld with _ | _
  · constructor
    · intro e _
      rfl
    · intro out t h
      exact Except.noConfusion h
  · rcases preprocessResult with e | a
    · constructor
      · intro e2 _
        rfl
      · intro out t h
        exact Except.noConfusion h
    · rcases h2 : inferResult a with e2 | b
      · have hdet : detect ⟨true, stats⟩ (Except.ok a) inferResult
            postprocessResult inference_time = (Except.error e2, ⟨true, stats⟩) := by
          simp [detect, h2]
        constructor
        · intro e3 _
          rw [hdet]
        · intro out t h
          rw [hdet] at h
          exact Except.noConfusion h
      · rcases h3 : postprocessResult b with e3 | c
        · have hdet : detect ⟨true, stats⟩ (Except.ok a) inferResult
              postprocessResult inference_time =
              (Except.error e3, ⟨true, stats⟩) := by
            simp [detect, h2, h3]
          constructor
          · intro e4 _
            rw [hdet]
          · intro out t h
            rw [hdet] at h
            exact Except.noConfusion h
        · have hdet : detect ⟨true, stats⟩ (Except.ok a) inferResult
              postprocessResult inference_time =
              (Except.ok (c, inference_time),
               ⟨true, updatePerformanceStats inference_time stats⟩) := by
            simp [detect, h2, h3]
          constructor
          · intro e4 he
            rw [hdet] at he
            exact Except.noConfusion he
          · intro out t h
            rw [hdet]
            exact ⟨rfl, rfl, rfl, rfl⟩

/-- C10 (witness): a successful `detect` on an engine that has already run
twice (total time 4) with elapsed time 2 yields three inferences, total
time 6 and average 6/3. -/
theorem detect_counters_atomic_witness :
    (detect ⟨true, ⟨2, 4, 2, 3⟩⟩ (Except.ok ())
        (fun _ : Unit => Except.ok ()) (fun _ : Unit => Except.ok (5 : ℕ))
        2).2.performance_stats.total_inferences = 2 + 1 ∧
    (detect ⟨true, ⟨2, 4, 2, 3⟩⟩ (Except.ok ())
        (fun _ : Unit => Except.ok ()) (fun _ : Unit => Except.ok (5 : ℕ))
        2).2.performance_stats.total_time = 4 + 2 ∧
    (detect ⟨true, ⟨2, 4, 2, 3⟩⟩ (Except.ok ())
        (fun _ : Unit => Except.ok ()) (fun _ : Unit => Except.ok (5 : ℕ))
        2).2.performance_stats.last_inference_time = 2 ∧
    (detect ⟨true, ⟨2, 4, 2, 3⟩⟩ (Except.ok ())
        (fun _ : Unit => Except.ok ()) (fun _ : Unit => Except.ok (5 : ℕ))
        2).2.performance_stats.avg_time =
      (detect ⟨true, ⟨2, 4, 2, 3⟩⟩ (Except.ok ())
          (fun _ : Unit => Except.ok ()) (fun _ : Unit => Except.ok (5 : ℕ))
          2).2.performance_stats.total_time /
        ((detect ⟨true, ⟨2, 4, 2, 3⟩⟩ (Except.ok ())
            (fun _ : Unit => Except.ok ()) (fun _ : Unit => Except.ok (5 : ℕ))
            2).2.performance_stats.total_inferences : ℚ) :=
  (detect_counters_atomic ⟨true, ⟨2, 4, 2, 3⟩⟩ (Except.ok ())
    (fun _ : Unit => Except.ok ()) (fun _ : Unit => Except.ok (5 : ℕ)) 2).2
    5 2 rfl

/-- C2: `DebounceManager.should_alert` debounce correctness.  For a key with
no prior record and window `W = debounce_time ≥ 0`: the first call returns
`true` and records its time; a second call strictly less than `W` seconds
later returns `false` and leaves the state (hence the record) untouched; a
second call more than `W` seconds later returns `true` and updates the
record.  Two calls within `W` therefore yield `(true, false)` and calls
spaced more than `W` apart yield `(true, true)`. -/
theorem shouldAlert_debounce_window (d : Detection) (m : DebounceManager)
    (t1 t2 : ℚ) (hW : 0 ≤ m.debounce_time)
    (hfresh : dictLookup (generateAlertKey d) m.alert_history = none) :
    (shouldAlert d t1 m).1 = true ∧
    (shouldAlert d t1 m).2.debounce_time = m.debounce_time ∧
    dictLookup (generateAlertKey d) (shouldAlert d t1 m).2.alert_history =
      some t1 ∧
    (t2 - t1 < m.debounce_time →
      shouldAlert d t2 (shouldAlert d t1 m).2 = (false, (shouldAlert d t1 m).2)) ∧
    (m.debounce_time < t2 - t1 →
      (shouldAlert d t2 (shouldAlert d t1 m).2).1 = true ∧
      dictLookup (generateAlertKey d)
        (shouldAlert d t2 (shouldAlert d t1 m).2).2.alert_history = some t2) := by
  have hkeep : ∀ ct : ℚ, (fun kv : String × ℚ =>
      ! decide (ct - kv.2 > m.debounce_time * 2)) (generateAlertKey d, ct) = true := by
    intro ct
    simp only [Bool.not_eq_true', decide_eq_false_iff_not, not_lt, sub_self]
    positivity
  have h1 : shouldAlert d t1 m =
      (true, cleanupOldAlerts t1
        ⟨m.debounce_time, dictInsert (generateAlertKey d) t1 m.alert_history⟩) := by
    simp only [shouldAlert, hfresh]
  have hW1 : (shouldAlert d t1 m).2.debounce_time = m.debounce_time := by
    rw [h1]
    rfl
  have hlook1 : dictLookup (generateAlertKey d)
      (shouldAlert d t1 m).2.alert_history = some t1 := by
    rw [h1]
    exact dictLookup_filter _
      (dictLookup_dictInsert_self (generateAlertKey d) t1 m.alert_history)
      (hkeep t1)
  refine ⟨by rw [h1], hW1, hlook1, ?_, ?_⟩
  · intro hlt
    set s1 := (shouldAlert d t1 m).2 with hs1
    simp only [shouldAlert, hlook1, hW1]
    rw [if_pos hlt]
  · intro hgt
    have hnlt : ¬ (t2 - t1 < m.debounce_time) := lt_asymm hgt
    constructor
    · set s1 := (shouldAlert d t1 m).2 with hs1
      simp only [shouldAlert, hlook1, hW1]
      rw [if_neg hnlt]
    · set s1 := (shouldAlert d t1 m).2 with hs1
      simp only [shouldAlert, hlook1, hW1, cleanupOldAlerts]
      rw [if_neg hnlt]
      exact dictLookup_filter _
        (dictLookup_dictInsert_self (generateAlertKey d) t2 s1.alert_history)
        (hkeep t2)

/-- C2 (witness): a fresh "person" detection against an empty 60-second
debounce manager alerts at time 0; calling again at time 100 (> 60 s later)
alerts again and re-records. -/
theorem shouldAlert_debounce_window_witness :
    (shouldAlert ⟨"person", (9 : ℚ)/10, [0, 0, 10, 10]⟩ 100
        (shouldAlert ⟨"person", (9 : ℚ)/10, [0, 0, 10, 10]⟩ 0 ⟨60, []⟩).2).1 =
      true ∧
    dictLookup (generateAlertKey ⟨"person", (9 : ℚ)/10, [0, 0, 10, 10]⟩)
      (shouldAlert ⟨"person", (9 : ℚ)/10, [0, 0, 10, 10]⟩ 100
        (shouldAlert ⟨"person", (9 : ℚ)/10, [0, 0, 10, 10]⟩ 0
          ⟨60, []⟩).2).2.alert_history = some 100 :=
  (shouldAlert_debounce_window ⟨"person", (9 : ℚ)/10, [0, 0, 10, 10]⟩
      ⟨60, []⟩ 0 100 (by with_unfolding_all decide)
      (by with_unfolding_all rfl)).2.2.2.2 (by with_unfolding_all decide)

/-- C3 (counterexample): with a live executor recorded for task id 1 but the
task deleted from the store, `start_task_manually(1)` raises "task does not
exist" instead of being a no-op — refuting "no error is raised" whenever an
executor for the id already exists. -/
theorem startTaskManually_deleted_task_raises :
    (dictLookup 1 ([(1, 7)] : List (ℕ × ℕ))).isSome = true ∧
    startTaskManually [] (fun _ => none) 1 ⟨[(1, 7)], []⟩ =
      Except.error "task does not exist: 1" := by
  constructor
  · rfl
  · with_unfolding_all rfl

/-- C3 (amended): the executor map, keyed by task id, keeps at most one
executor per id (key uniqueness is preserved by any successful
`start_task_manually`); starting a task that is already running is a no-op
with no error **provided the task id is still present in the store** (if the
task was deleted, the call raises before consulting the executor map); and
stopping a task with no recorded executor is a no-op. -/
theorem startStopTaskManually_idempotent (store : List Task)
    (construct : ℕ → Option ℕ) (task_id : ℕ) (s : SchedState) :
    ((store.find? (fun t => decide (t.id = task_id))).isSome = true →
      (dictLookup task_id s.executors).isSome = true →
      startTaskManually store construct task_id s = Except.ok s) ∧
    (dictLookup task_id s.executors = none → stopTaskManually task_id s = s) ∧
    ((s.executors.map Prod.fst).Nodup →
      ∀ s2, startTaskManually store construct task_id s = Except.ok s2 →
        (s2.executors.map Prod.fst).Nodup) := by
  refine ⟨?_, ?_, ?_⟩
  · intro hf hrun
    rcases hfind : store.find? (fun t => decide (t.id = task_id)) with _ | task
    · rw [hfind] at hf
      exact absurd hf (by simp)
    · simp [startTaskManually, hfind, hrun]
  · intro hnone
    simp [stopTaskManually, hnone]
  · intro hnd s2 hok
    unfold startTaskManually at hok
    rcases hfind : store.find? (fun t => decide (t.id = task_id)) with _ | task
    · rw [hfind] at hok
      exact Except.noConfusion hok
    · rw [hfind] at hok
      have hok2 : (if (dictLookup task_id s.executors).isSome = true then
          Except.ok s else Except.ok (startTask construct task s)) =
          Except.ok s2 := hok
      by_cases hrun : (dictLookup task_id s.executors).isSome = true
      · rw [if_pos hrun] at hok2
        cases hok2
        exact hnd
      · rw [if_neg hrun] at hok2
        cases hok2
        rcases hc : construct task.id with _ | ex
        · simpa [startTask, hc] using hnd
        · simp only [startTask, hc]
          exact keys_nodup_dictInsert task.id ex s.executors hnd

/-- C3 (witness): starting already-running task 1 (present in the store) is a
no-op returning the unchanged state, and stopping task 2, which has no
executor, is a no-op. -/
theorem startStopTaskManually_idempotent_witness :
    startTaskManually [⟨1, true, "continuous", "", "", [], 1, 60⟩]
        (fun _ => none) 1 ⟨[(1, 7)], []⟩ = Except.ok ⟨[(1, 7)], []⟩ ∧
    stopTaskManually 2 ⟨[(1, 7)], []⟩ = ⟨[(1, 7)], []⟩ :=
  ⟨(startStopTaskManually_idempotent
      [⟨1, true, "continuous", "", "", [], 1, 60⟩] (fun _ => none) 1
      ⟨[(1, 7)], []⟩).1 (by with_unfolding_all rfl) (by with_unfolding_all rfl),
   (startStopTaskManually_idempotent
      [⟨1, true, "continuous", "", "", [], 1, 60⟩] (fun _ => none) 2
      ⟨[(1, 7)], []⟩).2.1 (by with_unfolding_all rfl)⟩

/-- C5 (counterexample): an enabled task whose executor construction always
fails is marked "error" by the first reconciliation tick, yet the very next
tick attempts to construct it again (and again records "error") — the
scheduler hot-loops on the broken task every tick, refuting "not retried
again on every subsequent reconciliation tick". -/
theorem schedulerTick_hot_loop_retry :
    (schedulerTick (fun _ => none)
        [⟨1, true, "continuous", "", "", [], 1, 60⟩] ⟨[], []⟩).2 = [1] ∧
    (schedulerTick (fun _ => none)
        [⟨1, true, "continuous", "", "", [], 1, 60⟩]
        ⟨[], []⟩).1.status_updates = [(1, "error")] ∧
    (schedulerTick (fun _ => none) [⟨1, true, "continuous", "", "", [], 1, 60⟩]
        (schedulerTick (fun _ => none)
          [⟨1, true, "continuous", "", "", [], 1, 60⟩] ⟨[], []⟩).1).2 = [1] := by
  refine ⟨?_, ?_, ?_⟩
  · with_unfolding_all rfl
  · with_unfolding_all rfl
  · with_unfolding_all rfl

/-- C5 (amended): when constructing the executor of an enabled task fails,
the reconciliation tick catches the failure and records status "error"
without crashing (the tick is a total function and completes, recording the
attempt); but because the next tick again selects every enabled task with no
recorded executor, the same task's construction is re-attempted on the very
next tick — there is no backoff and no exclusion of errored tasks. -/
theorem schedulerTick_error_status_hot_retry (construct : ℕ → Option ℕ)
    (tasks : List Task) (s : SchedState) (t : Task)
    (hen : t.is_enabled = true) (hfail : construct t.id = none)
    (hmem : t ∈ tasks) (hnd : (tasks.map Task.id).Nodup)
    (hnone : dictLookup t.id s.executors = none) :
    t.id ∈ (schedulerTick construct tasks s).2 ∧
    (t.id, "error") ∈ (schedulerTick construct tasks s).1.status_updates ∧
    dictLookup t.id (schedulerTick construct tasks s).1.executors = none ∧
    t.id ∈ (schedulerTick construct tasks (schedulerTick construct tasks s).1).2 := by
  have h1 := tickStarts_failed_attempt construct t hen hfail tasks s hmem hnd hnone
  have hfst : (schedulerTick construct tasks s).1 =
      tickStops tasks (tickStarts construct tasks s).1 := rfl
  have hsnd : (schedulerTick construct tasks s).2 =
      (tickStarts construct tasks s).2 := rfl
  refine ⟨by rw [hsnd]; exact h1.1, ?_, ?_, ?_⟩
  · rw [hfst]
    exact tickStops_status_mono tasks _ _ h1.2.2
  · rw [hfst]
    exact tickStops_lookup_none tasks _ _ h1.2.1
  · have hnone2 : dictLookup t.id (schedulerTick construct tasks s).1.executors =
        none := by
      rw [hfst]
      exact tickStops_lookup_none tasks _ _ h1.2.1
    have h2 := tickStarts_failed_attempt construct t hen hfail tasks
      (schedulerTick construct tasks s).1 hmem hnd hnone2
    exact h2.1

/-- C5 (witness): the concrete enabled task 1 with an always-failing
constructor is attempted, marked "error", left without an executor, and
re-attempted by the following tick. -/
theorem schedulerTick_error_status_hot_retry_witness :
    (1 : ℕ) ∈ (schedulerTick (fun _ => none)
        [⟨1, true, "continuous", "", "", [], 1, 60⟩] ⟨[], []⟩).2 ∧
    ((1 : ℕ), "error") ∈ (schedulerTick (fun _ => none)
        [⟨1, true, "continuous", "", "", [], 1, 60⟩] ⟨[], []⟩).1.status_updates ∧
    dictLookup 1 (schedulerTick (fun _ => none)
        [⟨1, true, "continuous", "", "", [], 1, 60⟩] ⟨[], []⟩).1.executors =
      none ∧
    (1 : ℕ) ∈ (schedulerTick (fun _ => none)
        [⟨1, true, "continuous", "", "", [], 1, 60⟩]
        (schedulerTick (fun _ => none)
          [⟨1, true, "continuous", "", "", [], 1, 60⟩] ⟨[], []⟩).1).2 :=
  schedulerTick_error_status_hot_retry (fun _ => none)
    [⟨1, true, "continuous", "", "", [], 1, 60⟩] ⟨[], []⟩
    ⟨1, true, "continuous", "", "", [], 1, 60⟩ rfl rfl
    (List.mem_singleton_self _) (by simp) rfl

/-- C7 (counterexample): for a shape-`(n, 6)` output with two heavily
overlapping boxes (IoU 9801/10000 under the box interpretation `_apply_nms`
itself hands to `cv2.dnn.NMSBoxes`), both above the 0.5 confidence
threshold, `postprocess` returns both detections — no non-max suppression
(IoU threshold 0.4) has been applied to the xyxy path's result. -/
theorem postprocess_xyxy_skips_nms :
    (postprocess ⟨(1 : ℚ)/2, (2 : ℚ)/5, (640, 640), ["person"]⟩
        [RawOutput.xyxy [⟨0, 0, 100, 100, (9 : ℚ)/10, 0⟩,
          ⟨0, 0, 99, 99, (8 : ℚ)/10, 0⟩]] 640 640).length = 2 ∧
    ¬ nmsApplied ((2 : ℚ)/5)
      (postprocess ⟨(1 : ℚ)/2, (2 : ℚ)/5, (640, 640), ["person"]⟩
        [RawOutput.xyxy [⟨0, 0, 100, 100, (9 : ℚ)/10, 0⟩,
          ⟨0, 0, 99, 99, (8 : ℚ)/10, 0⟩]] 640 640) := by
  have hl : postprocess ⟨(1 : ℚ)/2, (2 : ℚ)/5, (640, 640), ["person"]⟩
      [RawOutput.xyxy [⟨0, 0, 100, 100, (9 : ℚ)/10, 0⟩,
        ⟨0, 0, 99, 99, (8 : ℚ)/10, 0⟩]] 640 640 =
      [⟨[0, 0, 100, 100], (9 : ℚ)/10, 0, "person"⟩,
       ⟨[0, 0, 99, 99], (8 : ℚ)/10, 0, "person"⟩] := by
    with_unfolding_all rfl
  constructor
  · rw [hl]
    rfl
  · rw [hl]
    intro hnms
    have hrel := (List.pairwise_cons.mp hnms).1
      ⟨[0, 0, 99, 99], (8 : ℚ)/10, 0, "person"⟩ (List.mem_singleton_self _)
    have hgt : ¬ (iouXYWH [0, 0, 100, 100] [0, 0, 99, 99] ≤ (2 : ℚ)/5) := by
      with_unfolding_all decide
    exact hgt hrel

/-- C7 (amended): in `CPUInference.postprocess`, confidence thresholding is
applied in both handled output formats and every returned bounding box is
scaled and clamped into original-frame pixel bounds; non-max suppression
with the engine's IoU threshold is applied only in the YOLO-format path
(whose result satisfies the pairwise NMS bound), while the xyxy-format path
returns exactly the confidence-filtered rescaled rows with no NMS stage. -/
theorem postprocess_conf_frame_yolo_nms (cfg : EngineConfig)
    (orig_h orig_w : ℕ) :
    (∀ rows, processXyxyFormat cfg rows orig_h orig_w =
      (rows.filter (fun r =>
        ! decide (r.confidence < cfg.confidence_threshold))).map
        (xyxyDetection cfg orig_h orig_w)) ∧
    (∀ outputs d, d ∈ postprocess cfg outputs orig_h orig_w →
      cfg.confidence_threshold ≤ d.confidence ∧
      bboxInFrame orig_h orig_w d.bbox = true) ∧
    (∀ rows, nmsApplied cfg.nms_threshold
      (processYoloFormat cfg rows orig_h orig_w)) := by
  refine ⟨fun rows => processXyxyFormat_eq_filter_map cfg rows orig_h orig_w,
    ?_, fun rows => nmsApplied_applyNms cfg _⟩
  intro outputs d hd
  rcases outputs with _ | ⟨o, rest⟩
  · exact absurd hd (List.not_mem_nil d)
  · rcases o with rows | rows | _
    · exact mem_processXyxyFormat cfg rows orig_h orig_w d hd
    · have hd2 : d ∈ yoloCandidates cfg rows orig_h orig_w :=
        mem_applyNms cfg _ d hd
      exact mem_yoloCandidates cfg rows orig_h orig_w d hd2
    · exact absurd hd (List.not_mem_nil d)

/-- C7 (witness): a 0.9-confidence xyxy detection at 640×640 input and
original size passes the 0.5 threshold and its returned box lies inside the
original frame. -/
theorem postprocess_conf_frame_yolo_nms_witness :
    (1 : ℚ)/2 ≤ (9 : ℚ)/10 ∧
    bboxInFrame 640 640 [0, 0, 100, 100] = true :=
  (postprocess_conf_frame_yolo_nms ⟨(1 : ℚ)/2, (2 : ℚ)/5, (640, 640),
      ["person"]⟩ 640 640).2.1
    [RawOutput.xyxy [⟨0, 0, 100, 100, (9 : ℚ)/10, 0⟩]]
    ⟨[0, 0, 100, 100], (9 : ℚ)/10, 0, "person"⟩
    (by with_unfolding_all decide)

end AiEdge
